import Mathlib

/-!
Verification development for the parallel Game of Life repository
(`single_threaded.c`, `double_buffer.c`, `cond_double_buffer.c`,
`non_double_buffer.c`).

The development is layered:

* `Packed` embeds the bit-packed grid storage of `non_double_buffer.c`
  (`get_byte_idx`, `set_cell`, `get_cell`, `get_cell_from_row`): memory is a
  map from byte index to byte value, and the C index arithmetic on `int` is
  mirrored with `Int.tdiv` / `Int.tmod` (C division and remainder truncate
  toward zero).
* `Dense` embeds the dense one-storage-unit-per-cell encoding used by
  `single_threaded.c`, `double_buffer.c` and `cond_double_buffer.c`
  (`grid[row][col]` direct indexing).
* `NonDoubleBuffer` embeds, over the cell-level view of the grid, the
  in-place row-update kernel `sub_update`, the per-worker boundary-buffer
  snapshot phase and worker partition of `update_grid` / `create_threads`,
  and the completion-counter protocol.
* `SingleThreaded` embeds the naive double-buffered reference
  `update_grid` of `single_threaded.c`.

Cells are addressed by `Int` coordinates so that the one-cell border ring
(row `-1`, row `rows`, column `-1`, column `cols`) is directly expressible,
exactly as the C code addresses it via its offset-by-one layout.
-/

set_option maxHeartbeats 1000000

namespace GoL

/-- Constant from `non_double_buffer.c`: total physical columns (logical plus
two border columns), in cells; the physical row is `CELL_TOT_COL / 8` bytes. -/
def CELL_TOT_COL : Nat := 128

/-- Constant from `non_double_buffer.c`: total physical rows. -/
def CELL_TOT_ROW : Nat := 130

/-- Constant from `non_double_buffer.c`. -/
def CELL_COL_OFFSET : Int := 1

/-- Constant from `non_double_buffer.c`. -/
def CELL_ROW_OFFSET : Int := 1

/-- Logical column count, `CELL_TOT_COL - CELL_COL_OFFSET * 2 = 126`. -/
def CELL_COL_COUNT : Nat := CELL_TOT_COL - 2

/-- Logical row count, `CELL_TOT_ROW - CELL_ROW_OFFSET * 2 = 128`. -/
def CELL_ROW_COUNT : Nat := CELL_TOT_ROW - 2

/-- Constant from `non_double_buffer.c` (and `cond_double_buffer.c`). -/
def THREAD_COUNT : Nat := 8

/-! ## The bit-packed grid storage of `non_double_buffer.c` -/

namespace Packed

/-- Packed grid memory: a map from byte index to byte value.  In the C code
this is the `cell*` (`uint8_t*`) array returned by `create_grid`; indices are
kept as `Int` to mirror the C pointer arithmetic on `int` expressions. -/
def Mem := Int → Nat

/-- Row base of `get_byte_idx` and `set_cell` / `get_cell`:
`(row + CELL_ROW_OFFSET) * (CELL_TOT_COL / 8)`. -/
def row_idx (row : Int) : Int :=
  (row + CELL_ROW_OFFSET) * ((CELL_TOT_COL : Int) / 8)

/-- Byte of the column within its physical row:
`(col + CELL_COL_OFFSET) / 8` with C truncated division. -/
def row_byte (col : Int) : Int :=
  (col + CELL_COL_OFFSET).tdiv 8

/-- C function `get_byte_idx` of `non_double_buffer.c`. -/
def get_byte_idx (row col : Int) : Int :=
  row_idx row + row_byte col

/-- Bit position of a column inside its byte, exactly as written in
`set_cell` / `get_cell` / `get_cell_from_row`:
`(col + (row_byte != 0)) % 8 + (row_byte == 0)` with C truncated `%`. -/
def bit_idx (col : Int) : Int :=
  (col + (if row_byte col ≠ 0 then 1 else 0)).tmod 8
    + (if row_byte col = 0 then 1 else 0)

/-- C function `set_cell` of `non_double_buffer.c`.  `grid[byte_idx] |= (1 << bit_idx)`
and `grid[byte_idx] &= ~(1 << bit_idx)`; the stored cell type is `uint8_t`, so
the complement mask is the complement within 8 bits. -/
def set_cell (grid : Mem) (row col : Int) (val : Bool) : Mem :=
  fun i =>
    if i = get_byte_idx row col then
      if val then grid i ||| (1 <<< (bit_idx col).toNat)
      else grid i &&& (255 ^^^ (1 <<< (bit_idx col).toNat))
    else grid i

/-- C function `get_cell` of `non_double_buffer.c`:
`grid[byte_idx] & (1 << bit_idx)` converted to `bool` (nonzero test). -/
def get_cell (grid : Mem) (row col : Int) : Bool :=
  (grid (get_byte_idx row col)).testBit (bit_idx col).toNat

/-- C function `get_cell_from_row` of `non_double_buffer.c`: reads a cell from
a copied one-row buffer (a map from byte offset within the row to byte). -/
def get_cell_from_row (row : Int → Nat) (col : Int) : Bool :=
  (row (row_byte col)).testBit (bit_idx col).toNat

end Packed

/-! ## The dense grid storage of the other three variants -/

namespace Dense

/-- Dense grid: one storage unit per cell, addressed directly as
`grid[row][col]` (the `cell**` layout of `single_threaded.c`,
`double_buffer.c` and `cond_double_buffer.c`, whose inner pointers are
offset by one so that index `-1` is valid). -/
def Grid := Int → Int → Bool

/-- Dense cell store, `grid[row][col] = val`. -/
def set_cell (g : Grid) (row col : Int) (val : Bool) : Grid :=
  fun r c => if r = row ∧ c = col then val else g r c

/-- Dense cell load, `grid[row][col]`. -/
def get_cell (g : Grid) (row col : Int) : Bool := g row col

end Dense

/-- One-row buffer at the cell level (`above`, `current`, `border` in the C
code): the contents of one full physical grid row, border cells included. -/
def Row := Int → Bool

/-- Cell state of a cell as a summand of the C `int alive_neighbors`
accumulator (`true` contributes 1). -/
def b2n (b : Bool) : Nat := b.toNat

/-- Number of live neighbors of cell `(r, c)` of grid `g`: the eight cells
surrounding it, in the read order shared by every variant's kernel. -/
def neighbor_count (g : Dense.Grid) (r c : Int) : Nat :=
  b2n (g (r - 1) (c - 1)) + b2n (g (r - 1) c) + b2n (g (r - 1) (c + 1))
    + b2n (g r (c - 1)) + b2n (g r (c + 1))
    + b2n (g (r + 1) (c - 1)) + b2n (g (r + 1) c) + b2n (g (r + 1) (c + 1))

/-- Factored per-cell next-state function: the common branch structure of the
kernels (`alive` is the cell's pre-update state, `n` its live-neighbor
count).  A dead cell with `n ≠ 3` is left untouched by the kernels; since it
was dead, its value stays `false`. -/
def next_state (alive : Bool) (n : Nat) : Bool :=
  if alive then
    if n < 2 ∨ n > 3 then false else true
  else if n = 3 then true
  else false

/-- Canonical two-state eight-neighbor rule, written from the specification
text (alive and count 2 or 3 → alive; dead and count exactly 3 → alive;
otherwise dead). -/
def spec_rule (alive : Bool) (n : Nat) : Bool :=
  (alive && (n == 2 || n == 3)) || (!alive && (n == 3))

/-- Pure synchronous generation step on the logical cells `[0, rows) ×
[0, cols)`: every logical cell advances by `next_state` read from the old
grid; all other cells (the border ring and beyond) are untouched. -/
def pure_step (g : Dense.Grid) (rows cols : Nat) : Dense.Grid :=
  fun r c =>
    if 0 ≤ r ∧ r < (rows : Int) ∧ 0 ≤ c ∧ c < (cols : Int) then
      next_state (g r c) (neighbor_count g r c)
    else g r c

/-! ## The worker-pool variant `non_double_buffer.c`

The kernel `sub_update` and the driver `update_grid` are embedded over the
cell-level view of the grid (`Dense.Grid`).  The packed byte array together
with its accessors implements exactly this view of cell contents: see
`Packed.get_set_same` and `Packed.get_set_other` for the storage
transparency, so the kernel's logic is independent of the encoding. -/

namespace NonDoubleBuffer

open Dense (Grid)

/-- C function `get_cell_from_row`: read a column from a copied row buffer. -/
def get_cell_from_row (row : Row) (col : Int) : Bool := row col

/-- C function `copy_row` applied to a whole physical grid row
(`copy_row(buf, &grid[get_byte_idx(i, -1)])`): snapshots row `i` of the
grid, border cells included. -/
def copy_row (g : Grid) (row : Int) : Row := fun c => g row c

/-- Neighbor accumulation of `sub_update` at row `i`, column `j`: three
reads from the `above` buffer, two side reads from the `curr` buffer, and
three below reads — from live grid memory while `i < row_end - 1`, from the
`border` snapshot on the last row.  (`row_end ≥ 1` at every call site, so
the `Nat` truncated subtraction agrees with the C `size_t` comparison.) -/
def alive_neighbors (grid : Grid) (above curr border : Row)
    (row_end : Nat) (i j : Nat) : Nat :=
  b2n (get_cell_from_row above ((j : Int) - 1))
    + b2n (get_cell_from_row above (j : Int))
    + b2n (get_cell_from_row above ((j : Int) + 1))
    + b2n (get_cell_from_row curr ((j : Int) - 1))
    + b2n (get_cell_from_row curr ((j : Int) + 1))
    + (if i < row_end - 1 then
        b2n (Dense.get_cell grid ((i : Int) + 1) ((j : Int) - 1))
          + b2n (Dense.get_cell grid ((i : Int) + 1) (j : Int))
          + b2n (Dense.get_cell grid ((i : Int) + 1) ((j : Int) + 1))
      else
        b2n (get_cell_from_row border ((j : Int) - 1))
          + b2n (get_cell_from_row border (j : Int))
          + b2n (get_cell_from_row border ((j : Int) + 1)))

/-- Column-loop body of `sub_update`: count neighbors, read the cell's own
pre-update state from the live grid, and write the successor state back in
place.  When the cell is dead and the count is not 3, no write occurs. -/
def col_body (above curr border : Row) (row_end i : Nat)
    (grid : Grid) (j : Nat) : Grid :=
  let n := alive_neighbors grid above curr border row_end i j
  if Dense.get_cell grid (i : Int) (j : Int) then
    if n < 2 ∨ n > 3 then Dense.set_cell grid (i : Int) (j : Int) false
    else Dense.set_cell grid (i : Int) (j : Int) true
  else if n = 3 then Dense.set_cell grid (i : Int) (j : Int) true
  else grid

/-- State threaded through the row loop of `sub_update`: the live grid plus
the worker's `above` and `curr` buffers (`border` is only read). -/
structure SubState where
  grid : Grid
  above : Row
  curr : Row

/-- Row-loop body of `sub_update`: `copy_row(curr, &grid[...i...])`, then the
column loop over `[0, cols)`, then `copy_row(above, curr)`. -/
def row_body (border : Row) (row_end cols : Nat)
    (s : SubState) (i : Nat) : SubState :=
  let curr := copy_row s.grid (i : Int)
  let grid := (List.range cols).foldl (col_body s.above curr border row_end i) s.grid
  { grid := grid, above := curr, curr := curr }

/-- C function `sub_update` of `non_double_buffer.c`: the in-place row-update
kernel over the half-open row range `[row_begin, row_end)`.  The C loop is
`for (i = row_begin; i != row_end; ++i)`; every call site has
`row_begin ≤ row_end`, which `List.range'` realizes. -/
def sub_update (grid : Grid) (above curr border : Row)
    (row_begin row_end cols : Nat) : Grid :=
  ((List.range' row_begin (row_end - row_begin)).foldl
    (row_body border row_end cols) ⟨grid, above, curr⟩).grid

/-- Worker `i`'s first row, as assigned in `create_threads`:
`(rows / THREAD_COUNT) * i`. -/
def row_begin (rows N i : Nat) : Nat := (rows / N) * i

/-- Worker `i`'s past-the-end row, as assigned in `create_threads`:
`(rows / THREAD_COUNT) * (i + 1)`. -/
def row_end (rows N i : Nat) : Nat := (rows / N) * (i + 1)

/-- Boundary snapshot buffers of one worker (`above_buffer`,
`current_buffer`, `border_buffer` of `thread_params`). -/
structure WorkerBuffers where
  above_buffer : Row
  current_buffer : Row
  border_buffer : Row

/-- Pre-generation snapshot phase of `update_grid` for worker `i`: the
driver copies the grid row above `row_begin` into the above buffer, the row
`row_begin` itself into the current buffer, and the row `row_end` (the row
just below `row_end - 1`) into the border buffer.  All three stored buffer
values are replaced. -/
def refresh_buffers (grid : Grid) (rows N i : Nat)
    (old : WorkerBuffers) : WorkerBuffers :=
  { above_buffer := copy_row grid ((row_begin rows N i : Int) - 1)
    current_buffer := copy_row grid (row_begin rows N i : Int)
    border_buffer := copy_row grid (row_end rows N i : Int) }

/-- Worker `i`'s kernel run within one generation: `sub_update` on its row
range, with all three buffers snapshotted by the driver from the
pre-generation grid `g0` before any worker starts. -/
def run_worker (g0 : Grid) (rows cols N i : Nat) (grid : Grid) : Grid :=
  let bufs := refresh_buffers g0 rows N i
    ⟨fun _ => false, fun _ => false, fun _ => false⟩
  sub_update grid bufs.above_buffer bufs.current_buffer bufs.border_buffer
    (row_begin rows N i) (row_end rows N i) cols

/-- One generation of `update_grid`: the driver refreshes every worker's
buffers from the pre-generation grid, wakes the workers, and each worker
(including the caller as worker 0) runs the kernel on its disjoint row
range.  Worker interleaving is modelled by executing the workers one after
another in an arbitrary `order`; every live read a worker performs falls in
its own row range or in a snapshot buffer, which the equivalence theorems
make precise. -/
def update_grid (grid : Grid) (rows cols N : Nat) (order : List Nat) : Grid :=
  order.foldl (fun g i => run_worker grid rows cols N i g) grid

/-- Repeated generations, each with its own worker execution order. -/
def run_generations (grid : Grid) (rows cols N : Nat)
    (orders : List (List Nat)) : Grid :=
  orders.foldl (fun g ord => update_grid g rows cols N ord) grid

/-! ### The completion-counter (`signal`) protocol -/

/-- Initial value of the completion counter within a generation: `signal`
starts at 0 (`atomic_init(info.signal, 0)`) and the driver's successful
compare-exchange resets it to 0 at the end of each generation. -/
def signal_init : Nat := 0

/-- Counter update a spawned worker performs on completing its row range:
`atomic_fetch_add_explicit(args.signal, 1, memory_order_release)` at the end
of the loop body of `thread_execution`.  The driving thread runs its own
`sub_update` call inline in `update_grid` and performs no increment. -/
def worker_signal_step (s : Nat) : Nat := s + 1

/-- Value of the `signal` counter after `k` spawned-worker completions
within one generation. -/
def signal_after (k : Nat) : Nat := worker_signal_step^[k] signal_init

/-- Exit condition of the driver's busy-wait in `update_grid`: the weak
compare-exchange with `expected = THREAD_COUNT - 1` and desired value 0
succeeds exactly when the counter holds `THREAD_COUNT - 1`.  `N` stands for
the worker count (`THREAD_COUNT = 8` in the source). -/
def driver_can_proceed (N s : Nat) : Bool := s == N - 1

/-! ### Construction (`create_threads`) and allocation failure -/

/-- Fields of the C `thread_info` struct whose values come from the six
`malloc` calls in the initializer of `create_threads`; `none` models a NULL
return. -/
structure thread_info where
  running : Option Unit
  signal : Option Unit
  cv : Option Unit
  cv_mtx : Option Unit
  threads : Option Unit
  params : Option Unit

/-- C function `create_threads` of `non_double_buffer.c` (and, with the same
shape, of `cond_double_buffer.c`), restricted to its construction outcome:
the six `malloc` results are stored into the `thread_info` initializer with
no NULL check, the `atomic_init` / `pthread_cond_init` /
`pthread_mutex_init` calls and the `pthread_create` loop follow with their
return values ignored, and the struct is returned unconditionally.  The
`Option` result is the construction-failure channel the specification
demands; the embedded code has no failure path, so the result is always
`some`. -/
def create_threads (running signal cv cv_mtx threads params : Option Unit) :
    Option thread_info :=
  some { running := running, signal := signal, cv := cv, cv_mtx := cv_mtx,
         threads := threads, params := params }

end NonDoubleBuffer

/-! ## The naive double-buffered reference `single_threaded.c` -/

namespace SingleThreaded

open Dense (Grid)

/-- Neighbor accumulation of `update_grid` in `single_threaded.c`: the
eight surrounding cells, all read from the `prev` grid. -/
def alive_neighbors (prev : Grid) (i j : Int) : Nat :=
  b2n (prev (i - 1) (j - 1)) + b2n (prev (i - 1) j) + b2n (prev (i - 1) (j + 1))
    + b2n (prev i (j - 1)) + b2n (prev i (j + 1))
    + b2n (prev (i + 1) (j - 1)) + b2n (prev (i + 1) j) + b2n (prev (i + 1) (j + 1))

/-- Per-cell body of `update_grid` in `single_threaded.c`: in the alive
branch, three sequential `if` statements each conditionally assign
`curr[i][j]`; in the dead branch a write happens only when the count is
exactly 3. -/
def cell_body (prev : Grid) (i j : Nat) (curr : Grid) : Grid :=
  let n := alive_neighbors prev (i : Int) (j : Int)
  if Dense.get_cell prev (i : Int) (j : Int) then
    let c1 := if n < 2 then Dense.set_cell curr (i : Int) (j : Int) false else curr
    let c2 := if n = 2 ∨ n = 3 then Dense.set_cell c1 (i : Int) (j : Int) true else c1
    if n > 3 then Dense.set_cell c2 (i : Int) (j : Int) false else c2
  else if n = 3 then Dense.set_cell curr (i : Int) (j : Int) true
  else curr

/-- C function `update_grid` of `single_threaded.c`: the naive non-parallel
double-buffered reference; reads come from `prev`, writes go to `curr`. -/
def update_grid (curr prev : Grid) (rows cols : Nat) : Grid :=
  (List.range rows).foldl
    (fun c i => (List.range cols).foldl (fun c2 j => cell_body prev i j c2) c)
    curr

end SingleThreaded

/-! ## Concrete instances used in the analysis -/

/-- Grid with every cell dead (including the border ring). -/
def all_dead : Dense.Grid := fun _ _ => false

/-- Grid whose interior is all dead but whose upper border row (`row -1`)
is fully alive; it agrees with `all_dead` on every logical cell. -/
def live_top_border : Dense.Grid := fun r _ => decide (r = -1)

/-- Grid with the single cell `(0, 0)` alive. -/
def one_live_cell : Dense.Grid := fun r c => decide (r = 0 ∧ c = 0)

/-- Worker buffers holding all-dead rows. -/
def dead_buffers : NonDoubleBuffer.WorkerBuffers :=
  ⟨fun _ => false, fun _ => false, fun _ => false⟩

/-! ## Properties of the packed storage -/

namespace Packed

/-- Normal form of the packed addressing for a dereferenceable column
(`col ≥ -1`): the byte within the row is `(col + 1) / 8` and the bit is
`(col + 1) % 8`.  The convoluted C expression for `bit_idx` coincides with
this plain base-8 decomposition on the whole valid range. -/
theorem row_byte_bit_idx_eq (col : Int) (h : -1 ≤ col) :
    row_byte col = (col + 1) / 8 ∧ bit_idx col = (col + 1) % 8 := by
  rcases eq_or_lt_of_le h with h1 | h1
  · constructor <;> simp [row_byte, bit_idx, ← h1] <;> decide
  · have hc : 0 ≤ col := by omega
    have hrb : row_byte col = (col + 1) / 8 := by
      unfold row_byte CELL_COL_OFFSET
      exact Int.tdiv_eq_ediv (by omega) (by omega)
    refine ⟨hrb, ?_⟩
    unfold bit_idx
    simp only [hrb]
    by_cases h8 : (col + 1) / 8 = 0
    · have hlt : col + 1 < 8 := by
        by_contra hge
        have : 1 ≤ (col + 1) / 8 := by
          have := Int.ediv_le_ediv (by omega : (0:Int) < 8) (by omega : (8:Int) ≤ col + 1)
          simpa using this
        omega
      rw [if_neg (by simp [h8]), if_pos h8, add_zero,
        Int.tmod_eq_emod hc (by omega)]
      omega
    · rw [if_pos (by simp [h8]), if_neg h8, add_zero,
        Int.tmod_eq_emod (by omega) (by omega)]

/-- Bounds for the bit index on the dereferenceable column range. -/
theorem bit_idx_lt (col : Int) (h : -1 ≤ col) :
    0 ≤ bit_idx col ∧ bit_idx col < 8 := by
  rw [(row_byte_bit_idx_eq col h).2]
  constructor
  · exact Int.emod_nonneg _ (by omega)
  · exact Int.emod_lt_of_pos _ (by omega)

/-- Helper: every bit below 8 is set in the byte mask `255`. -/
theorem testBit_255 (b : Nat) (hb : b < 8) : Nat.testBit 255 b = true := by
  interval_cases b <;> decide

/-- Reading back the bit just written: the packed `get_cell` after
`set_cell` at the same coordinate returns the stored value, for any
dereferenceable column. -/
theorem get_set_same (g : Mem) (row col : Int) (v : Bool) (h : -1 ≤ col) :
    get_cell (set_cell g row col v) row col = v := by
  obtain ⟨h0, h8⟩ := bit_idx_lt col h
  have hb : (bit_idx col).toNat < 8 := by omega
  unfold get_cell set_cell
  rw [if_pos rfl]
  cases v
  · simp [Nat.testBit_and, Nat.testBit_xor, Nat.one_shiftLeft,
      Nat.testBit_two_pow, testBit_255 _ hb]
  · simp [Nat.testBit_or, Nat.one_shiftLeft, Nat.testBit_two_pow]

/-- Value of `CELL_TOT_COL / 8` as it appears in `row_idx`. -/
theorem tot_col_div : (CELL_TOT_COL : Int) / 8 = 16 := by decide

/-- Range of the within-row byte index over the dereferenceable columns. -/
theorem row_byte_range (col : Int) (h1 : -1 ≤ col) (h2 : col ≤ CELL_COL_COUNT) :
    0 ≤ row_byte col ∧ row_byte col ≤ 15 := by
  rw [(row_byte_bit_idx_eq col h1).1]
  have h2' : col ≤ 126 := by simpa [CELL_COL_COUNT, CELL_TOT_COL] using h2
  omega

/-- Frame property of the packed store: writing cell `(row, col)` changes no
other dereferenceable cell `(r, c)`, including border cells. -/
theorem get_set_other (g : Mem) (row col : Int) (v : Bool) (r c : Int)
    (hrow1 : -1 ≤ row) (hrow2 : row ≤ CELL_ROW_COUNT)
    (hcol1 : -1 ≤ col) (hcol2 : col ≤ CELL_COL_COUNT)
    (hr1 : -1 ≤ r) (hr2 : r ≤ CELL_ROW_COUNT)
    (hc1 : -1 ≤ c) (hc2 : c ≤ CELL_COL_COUNT)
    (hne : ¬(r = row ∧ c = col)) :
    get_cell (set_cell g row col v) r c = get_cell g r c := by
  unfold get_cell set_cell
  by_cases hbyte : get_byte_idx r c = get_byte_idx row col
  · -- Same byte: the coordinates must share the row and the row byte,
    -- and then the bit positions must differ.
    have hrb := (row_byte_bit_idx_eq col hcol1).1
    have hrbc := (row_byte_bit_idx_eq c hc1).1
    have hbi := (row_byte_bit_idx_eq col hcol1).2
    have hbic := (row_byte_bit_idx_eq c hc1).2
    have hrange := row_byte_range col hcol1 hcol2
    have hrangec := row_byte_range c hc1 hc2
    have hcc : c ≤ 126 := by simpa [CELL_COL_COUNT, CELL_TOT_COL] using hc2
    have hcol2' : col ≤ 126 := by simpa [CELL_COL_COUNT, CELL_TOT_COL] using hcol2
    have heq : (r + 1) * 16 + row_byte c = (row + 1) * 16 + row_byte col := by
      have := hbyte
      unfold get_byte_idx row_idx at this
      rw [tot_col_div] at this
      simpa [CELL_ROW_OFFSET] using this
    have hrr : r = row ∧ row_byte c = row_byte col := by constructor <;> omega
    have hbitne : bit_idx c ≠ bit_idx col := by
      intro habs
      apply hne
      refine ⟨hrr.1, ?_⟩
      rw [hbic, hbi] at habs
      rw [hrbc, hrb] at hrr
      omega
    obtain ⟨hb0, hb8⟩ := bit_idx_lt col hcol1
    obtain ⟨hc0, hc8⟩ := bit_idx_lt c hc1
    have hbc : (bit_idx c).toNat < 8 := by omega
    have htne : (bit_idx col).toNat ≠ (bit_idx c).toNat := by omega
    rw [hbyte, if_pos rfl]
    cases v
    · simp [Nat.testBit_and, Nat.testBit_xor, Nat.one_shiftLeft,
        Nat.testBit_two_pow, testBit_255 _ hbc, htne]
    · simp [Nat.testBit_or, Nat.one_shiftLeft, Nat.testBit_two_pow, htne]
  · rw [if_neg hbyte]

end Packed

/-! ## Characterization of the row-update kernel -/

namespace NonDoubleBuffer

open Dense (Grid)

/-- Single-cell bound for the neighbor accumulation summands. -/
theorem b2n_le_one (b : Bool) : b2n b ≤ 1 := by cases b <;> simp [b2n]

/-- Pointwise form of the dense store. -/
theorem set_cell_apply (g : Grid) (row col : Int) (v : Bool) (r c : Int) :
    Dense.set_cell g row col v r c = if r = row ∧ c = col then v else g r c := rfl

/-- Upper bound of the kernel's neighbor accumulation: a sum of eight cell
reads never exceeds 8. -/
theorem alive_neighbors_le (grid : Grid) (above curr border : Row)
    (row_end i j : Nat) :
    alive_neighbors grid above curr border row_end i j ≤ 8 := by
  have A1 := b2n_le_one (get_cell_from_row above ((j : Int) - 1))
  have A2 := b2n_le_one (get_cell_from_row above (j : Int))
  have A3 := b2n_le_one (get_cell_from_row above ((j : Int) + 1))
  have S1 := b2n_le_one (get_cell_from_row curr ((j : Int) - 1))
  have S2 := b2n_le_one (get_cell_from_row curr ((j : Int) + 1))
  have B1 := b2n_le_one (Dense.get_cell grid ((i : Int) + 1) ((j : Int) - 1))
  have B2 := b2n_le_one (Dense.get_cell grid ((i : Int) + 1) (j : Int))
  have B3 := b2n_le_one (Dense.get_cell grid ((i : Int) + 1) ((j : Int) + 1))
  have D1 := b2n_le_one (get_cell_from_row border ((j : Int) - 1))
  have D2 := b2n_le_one (get_cell_from_row border (j : Int))
  have D3 := b2n_le_one (get_cell_from_row border ((j : Int) + 1))
  unfold alive_neighbors
  split <;> omega

/-- Pointwise form of the column-loop body: it writes exactly the cell
`(i, j)`, to the value of `next_state` on the cell's pre-update state and
the kernel's neighbor count; every other cell keeps its value. -/
theorem col_body_apply (above curr border : Row) (row_end i : Nat)
    (grid : Grid) (j : Nat) (r c : Int) :
    col_body above curr border row_end i grid j r c =
      if r = (i : Int) ∧ c = (j : Int) then
        next_state (grid (i : Int) (j : Int))
          (alive_neighbors grid above curr border row_end i j)
      else grid r c := by
  rcases hg : grid (i : Int) (j : Int) with _ | _ <;>
  by_cases hn2 : alive_neighbors grid above curr border row_end i j < 2 ∨
      alive_neighbors grid above curr border row_end i j > 3 <;>
  by_cases hn3 : alive_neighbors grid above curr border row_end i j = 3 <;>
  by_cases hrc : r = (i : Int) ∧ c = (j : Int) <;>
  simp [col_body, Dense.set_cell, Dense.get_cell, next_state, hg, hn2, hn3,
    hrc]

/-- Value of the kernel's neighbor accumulation when the buffers hold the
pre-generation rows around row `i` and (while not on the last row) the live
row below still holds its pre-generation contents: it is exactly the
eight-neighbor count in the pre-generation grid `g0`. -/
theorem alive_neighbors_eq (grid : Grid) (above curr border : Row)
    (row_end i j : Nat) (g0 : Grid)
    (ha : ∀ c : Int, above c = g0 ((i : Int) - 1) c)
    (hcu : ∀ c : Int, curr c = g0 (i : Int) c)
    (hbel1 : i < row_end - 1 → ∀ c : Int, grid ((i : Int) + 1) c = g0 ((i : Int) + 1) c)
    (hbel2 : ¬ i < row_end - 1 → ∀ c : Int, border c = g0 ((i : Int) + 1) c) :
    alive_neighbors grid above curr border row_end i j =
      neighbor_count g0 (i : Int) (j : Int) := by
  unfold alive_neighbors neighbor_count get_cell_from_row Dense.get_cell
  by_cases h : i < row_end - 1
  · rw [if_pos h, ha, ha, ha, hcu, hcu, hbel1 h, hbel1 h, hbel1 h]; ring
  · rw [if_neg h, ha, ha, ha, hcu, hcu, hbel2 h, hbel2 h, hbel2 h]; ring

/-- Invariant of the kernel's column loop over one row: starting from a grid
whose row `i` is already stepped on columns `[0, m)` and untouched elsewhere,
folding the column body over columns `[m, m + k)` extends the stepped region
to `[0, m + k)` and changes no other cell. -/
theorem col_fold_go (above curr border : Row) (row_end i : Nat) (g0 : Grid)
    (ha : ∀ c : Int, above c = g0 ((i : Int) - 1) c)
    (hcu : ∀ c : Int, curr c = g0 (i : Int) c)
    (hb2 : ¬ i < row_end - 1 → ∀ c : Int, border c = g0 ((i : Int) + 1) c) :
    ∀ (k m : Nat) (grid : Grid),
      (∀ c : Int, grid (i : Int) c =
        if 0 ≤ c ∧ c < (m : Int) then
          next_state (g0 (i : Int) c) (neighbor_count g0 (i : Int) c)
        else g0 (i : Int) c) →
      (i < row_end - 1 →
        ∀ c : Int, grid ((i : Int) + 1) c = g0 ((i : Int) + 1) c) →
      ∀ r c : Int,
        (List.range' m k).foldl (col_body above curr border row_end i) grid r c =
          if r = (i : Int) ∧ 0 ≤ c ∧ c < ((m + k : Nat) : Int) then
            next_state (g0 (i : Int) c) (neighbor_count g0 (i : Int) c)
          else grid r c := by
  intro k
  induction k with
  | zero =>
    intro m grid hrow _ r c
    simp only [List.range'_zero, List.foldl_nil]
    by_cases hrc : r = (i : Int) ∧ 0 ≤ c ∧ c < ((m + 0 : Nat) : Int)
    · rw [if_pos hrc]
      obtain ⟨h1, h2, h3⟩ := hrc
      subst h1
      rw [hrow c, if_pos ⟨h2, by push_cast at h3 ⊢; omega⟩]
    · rw [if_neg hrc]
  | succ k ih =>
    intro m grid hrow hbel r c
    rw [List.range'_succ, List.foldl_cons]
    have hgim : grid (i : Int) (m : Int) = g0 (i : Int) (m : Int) := by
      rw [hrow, if_neg]
      intro hx
      omega
    have han : alive_neighbors grid above curr border row_end i m =
        neighbor_count g0 (i : Int) (m : Int) :=
      alive_neighbors_eq grid above curr border row_end i m g0 ha hcu hbel hb2
    have hg1c : ∀ r2 c2 : Int,
        col_body above curr border row_end i grid m r2 c2 =
          if r2 = (i : Int) ∧ c2 = (m : Int) then
            next_state (g0 (i : Int) (m : Int))
              (neighbor_count g0 (i : Int) (m : Int))
          else grid r2 c2 := by
      intro r2 c2
      rw [col_body_apply, hgim, han]
    have hrow1 : ∀ c2 : Int,
        col_body above curr border row_end i grid m (i : Int) c2 =
          if 0 ≤ c2 ∧ c2 < ((m + 1 : Nat) : Int) then
            next_state (g0 (i : Int) c2) (neighbor_count g0 (i : Int) c2)
          else g0 (i : Int) c2 := by
      intro c2
      rw [hg1c]
      by_cases hc : c2 = (m : Int)
      · subst hc
        rw [if_pos ⟨rfl, rfl⟩, if_pos (by push_cast; omega)]
      · rw [if_neg (by intro hx; exact hc hx.2), hrow]
        by_cases h0 : 0 ≤ c2 ∧ c2 < (m : Int)
        · rw [if_pos h0, if_pos (by push_cast at h0 ⊢; omega)]
        · rw [if_neg h0, if_neg (by push_cast at h0 ⊢; omega)]
    have hbel1 : i < row_end - 1 →
        ∀ c2 : Int, col_body above curr border row_end i grid m ((i : Int) + 1) c2 =
          g0 ((i : Int) + 1) c2 := by
      intro h c2
      rw [hg1c, if_neg (by intro hx; omega), hbel h c2]
    have hres := ih (m + 1) (col_body above curr border row_end i grid m)
      hrow1 hbel1 r c
    rw [hres]
    have hcast : ((m + 1 + k : Nat) : Int) = ((m + (k + 1) : Nat) : Int) := by
      push_cast; ring
    rw [hcast]
    by_cases hrc : r = (i : Int) ∧ 0 ≤ c ∧ c < ((m + (k + 1) : Nat) : Int)
    · rw [if_pos hrc, if_pos hrc]
    · rw [if_neg hrc, if_neg hrc, hg1c, if_neg]
      intro hx
      apply hrc
      refine ⟨hx.1, ?_, ?_⟩ <;> rw [hx.2] <;> push_cast <;> omega

/-- Invariant of the kernel's row loop: if the rows from `i` up to `row_end`
still hold their pre-generation contents, the `above` buffer holds the
pre-generation row `i - 1`, and the `border` buffer holds the
pre-generation row `row_end`, then folding the row body over rows
`[i, row_end)` steps exactly the logical cells of those rows and changes
nothing else. -/
theorem row_fold_go (border : Row) (row_end cols : Nat) (g0 : Grid)
    (hb : ∀ c : Int, border c = g0 (row_end : Int) c) :
    ∀ (k i : Nat) (s : SubState),
      i + k = row_end →
      (∀ c : Int, s.above c = g0 ((i : Int) - 1) c) →
      (∀ r c : Int, (i : Int) ≤ r → r < (row_end : Int) → s.grid r c = g0 r c) →
      ∀ r c : Int,
        ((List.range' i k).foldl (row_body border row_end cols) s).grid r c =
          if (i : Int) ≤ r ∧ r < (row_end : Int) ∧ 0 ≤ c ∧ c < (cols : Int) then
            next_state (g0 r c) (neighbor_count g0 r c)
          else s.grid r c := by
  intro k
  induction k with
  | zero =>
    intro i s hik ha hg r c
    simp only [List.range'_zero, List.foldl_nil]
    rw [if_neg]
    intro hx
    omega
  | succ k ih =>
    intro i s hik ha hg r c
    rw [List.range'_succ, List.foldl_cons]
    have hi_lt : i < row_end := by omega
    have hiI : (i : Int) < (row_end : Int) := by exact_mod_cast hi_lt
    have hcu : ∀ c2 : Int, copy_row s.grid (i : Int) c2 = g0 (i : Int) c2 := by
      intro c2
      exact hg _ _ (le_refl _) hiI
    have hrow0 : ∀ c2 : Int, s.grid (i : Int) c2 =
        if 0 ≤ c2 ∧ c2 < ((0 : Nat) : Int) then
          next_state (g0 (i : Int) c2) (neighbor_count g0 (i : Int) c2)
        else g0 (i : Int) c2 := by
      intro c2
      rw [if_neg (by intro hx; omega)]
      exact hg _ _ (le_refl _) hiI
    have hbel0 : i < row_end - 1 →
        ∀ c2 : Int, s.grid ((i : Int) + 1) c2 = g0 ((i : Int) + 1) c2 := by
      intro h c2
      have h1 : (i : Int) + 1 < (row_end : Int) := by
        have : i + 1 < row_end := by omega
        exact_mod_cast this
      exact hg _ _ (by omega) h1
    have hb2 : ¬ i < row_end - 1 → ∀ c2 : Int, border c2 = g0 ((i : Int) + 1) c2 := by
      intro h c2
      have hre : (row_end : Int) = (i : Int) + 1 := by
        have : row_end = i + 1 := by omega
        rw [this]; push_cast; ring
      rw [hb, hre]
    have hcol := col_fold_go s.above (copy_row s.grid (i : Int)) border row_end i
      g0 ha hcu hb2 cols 0 s.grid hrow0 hbel0
    have hs1 : row_body border row_end cols s i =
        { grid := (List.range' 0 cols).foldl
            (col_body s.above (copy_row s.grid (i : Int)) border row_end i) s.grid
          above := copy_row s.grid (i : Int)
          curr := copy_row s.grid (i : Int) } := by
      simp only [row_body, List.range_eq_range']
    have hg1 : ∀ r2 c2 : Int, (row_body border row_end cols s i).grid r2 c2 =
        if r2 = (i : Int) ∧ 0 ≤ c2 ∧ c2 < (cols : Int) then
          next_state (g0 (i : Int) c2) (neighbor_count g0 (i : Int) c2)
        else s.grid r2 c2 := by
      intro r2 c2
      rw [hs1]
      have := hcol r2 c2
      simpa using this
    have hink : i + 1 + k = row_end := by omega
    have ha1 : ∀ c2 : Int, (row_body border row_end cols s i).above c2 =
        g0 (((i + 1 : Nat) : Int) - 1) c2 := by
      intro c2
      rw [hs1]
      have : (((i + 1 : Nat) : Int) - 1) = (i : Int) := by push_cast; ring
      rw [this]
      exact hcu c2
    have hgrid1 : ∀ r2 c2 : Int, ((i + 1 : Nat) : Int) ≤ r2 →
        r2 < (row_end : Int) → (row_body border row_end cols s i).grid r2 c2 = g0 r2 c2 := by
      intro r2 c2 hlo hhi
      rw [hg1, if_neg (by intro hx; rw [hx.1] at hlo; push_cast at hlo; omega)]
      exact hg _ _ (by push_cast at hlo ⊢; omega) hhi
    have hres := ih (i + 1) (row_body border row_end cols s i) hink ha1 hgrid1 r c
    rw [hres]
    by_cases h1 : ((i + 1 : Nat) : Int) ≤ r ∧ r < (row_end : Int) ∧ 0 ≤ c ∧ c < (cols : Int)
    · rw [if_pos h1, if_pos]
      obtain ⟨ha2, hb2x, hc2, hd2⟩ := h1
      exact ⟨by push_cast at ha2 ⊢; omega, hb2x, hc2, hd2⟩
    · rw [if_neg h1, hg1]
      by_cases h2 : r = (i : Int) ∧ 0 ≤ c ∧ c < (cols : Int)
      · rw [if_pos h2, if_pos, h2.1]
        exact ⟨le_of_eq h2.1.symm, by rw [h2.1]; exact hiI, h2.2.1, h2.2.2⟩
      · rw [if_neg h2, if_neg]
        intro hx
        obtain ⟨hxa, hxb, hxc, hxd⟩ := hx
        by_cases hri : r = (i : Int)
        · exact h2 ⟨hri, hxc, hxd⟩
        · exact h1 ⟨by push_cast; omega, hxb, hxc, hxd⟩

/-- Full characterization of the kernel `sub_update`: run on a grid whose
rows `[row_begin, row_end)` still hold the pre-generation contents `g0`,
with the `above` buffer holding the pre-generation row `row_begin - 1` and
the `border` buffer the pre-generation row `row_end`, it steps exactly the
logical cells of its row range (by the update rule read from `g0`) and
leaves every other cell of the grid unchanged.  The incoming `curr` buffer
is irrelevant: it is overwritten at the start of each row. -/
theorem sub_update_spec (g0 grid : Grid) (above curr border : Row)
    (row_begin row_end cols : Nat)
    (hle : row_begin ≤ row_end)
    (hab : ∀ c : Int, above c = g0 ((row_begin : Int) - 1) c)
    (hbord : ∀ c : Int, border c = g0 (row_end : Int) c)
    (hgrid : ∀ r c : Int, (row_begin : Int) ≤ r → r < (row_end : Int) →
      grid r c = g0 r c) :
    ∀ r c : Int, sub_update grid above curr border row_begin row_end cols r c =
      if (row_begin : Int) ≤ r ∧ r < (row_end : Int) ∧ 0 ≤ c ∧ c < (cols : Int)
      then next_state (g0 r c) (neighbor_count g0 r c)
      else grid r c := by
  intro r c
  unfold sub_update
  exact row_fold_go border row_end cols g0 hbord (row_end - row_begin)
    row_begin ⟨grid, above, curr⟩ (by omega) hab hgrid r c

/-- Worker ranges are ordered by worker index. -/
theorem row_begin_le_row_end (rows N i : Nat) :
    row_begin rows N i ≤ row_end rows N i :=
  Nat.mul_le_mul (Nat.le_refl _) (by omega)

/-- Characterization of one worker's run within a generation: it steps the
logical cells of its own row range, reading the pre-generation grid `g0`
through the snapshot buffers and through its own untouched rows, and leaves
all other cells of the running grid unchanged. -/
theorem run_worker_spec (g0 grid : Grid) (rows cols N i : Nat)
    (hgrid : ∀ r c : Int, (row_begin rows N i : Int) ≤ r →
      r < (row_end rows N i : Int) → grid r c = g0 r c) :
    ∀ r c : Int, run_worker g0 rows cols N i grid r c =
      if (row_begin rows N i : Int) ≤ r ∧ r < (row_end rows N i : Int) ∧
          0 ≤ c ∧ c < (cols : Int) then
        next_state (g0 r c) (neighbor_count g0 r c)
      else grid r c := by
  intro r c
  unfold run_worker refresh_buffers
  exact sub_update_spec g0 grid _ _ _ _ _ cols (row_begin_le_row_end rows N i)
    (fun c2 => rfl) (fun c2 => rfl) hgrid r c

/-- Row ranges of distinct workers never contain a common row. -/
theorem ranges_disjoint (rows N i j : Nat) (hne : i ≠ j) (r : Int) :
    ¬((row_begin rows N i : Int) ≤ r ∧ r < (row_end rows N i : Int) ∧
      (row_begin rows N j : Int) ≤ r ∧ r < (row_end rows N j : Int)) := by
  rintro ⟨h1, h2, h3, h4⟩
  rcases Nat.lt_or_ge i j with h | h
  · have hx : row_end rows N i ≤ row_begin rows N j :=
      Nat.mul_le_mul (Nat.le_refl _) (by omega)
    have hc : (row_end rows N i : Int) ≤ (row_begin rows N j : Int) := by
      exact_mod_cast hx
    omega
  · have hj : j < i := by omega
    have hx : row_end rows N j ≤ row_begin rows N i :=
      Nat.mul_le_mul (Nat.le_refl _) (by omega)
    have hc : (row_end rows N j : Int) ≤ (row_begin rows N i : Int) := by
      exact_mod_cast hx
    omega

/-- Exhaustiveness of the worker partition: when `rows` is divisible by the
worker count, every logical row lies in some worker's range. -/
theorem covered_exists (rows N : Nat) (hN : 0 < N) (hdvd : N ∣ rows) (r : Int)
    (h0 : 0 ≤ r) (hr : r < (rows : Int)) :
    ∃ i, i < N ∧ (row_begin rows N i : Int) ≤ r ∧
      r < (row_end rows N i : Int) := by
  obtain ⟨q, hq⟩ := hdvd
  have hrn : r = (r.toNat : Int) := by omega
  have hnrows : r.toNat < rows := by omega
  have hq0 : 0 < q := by
    rcases Nat.eq_zero_or_pos q with h | h
    · subst h; omega
    · exact h
  have hqd : rows / N = q := by rw [hq]; exact Nat.mul_div_cancel_left q hN
  set n := r.toNat with hn
  have hdm : q * (n / q) + n % q = n := Nat.div_add_mod n q
  have hmlt : n % q < q := Nat.mod_lt _ hq0
  have hbeg : row_begin rows N (n / q) = q * (n / q) := by
    unfold row_begin; rw [hqd]
  have hend : row_end rows N (n / q) = q * (n / q) + q := by
    unfold row_end; rw [hqd]; ring
  refine ⟨n / q, ?_, ?_, ?_⟩
  · exact (Nat.div_lt_iff_lt_mul hq0).mpr (by omega)
  · rw [hbeg]
    have : q * (n / q) ≤ n := by omega
    omega
  · rw [hend]
    have : n < q * (n / q) + q := by omega
    omega

/-- Invariant of the generation's worker fold: with the workers of `done`
already run (their logical rows stepped, everything else still `g0`),
running the remaining workers `rest` — in the given order — extends the
stepped region to the rows of `done ++ rest` and touches nothing else.
Disjointness of the row ranges is what makes the order irrelevant. -/
theorem update_fold_go (g0 : Grid) (rows cols N : Nat) :
    ∀ (rest done : List Nat) (grid : Grid),
      (done ++ rest).Nodup →
      (∀ r c : Int,
        (∃ k ∈ done, (row_begin rows N k : Int) ≤ r ∧
          r < (row_end rows N k : Int)) →
        0 ≤ c → c < (cols : Int) →
        grid r c = next_state (g0 r c) (neighbor_count g0 r c)) →
      (∀ r c : Int,
        (¬ ∃ k ∈ done, (row_begin rows N k : Int) ≤ r ∧
          r < (row_end rows N k : Int)) ∨ ¬(0 ≤ c ∧ c < (cols : Int)) →
        grid r c = g0 r c) →
      (∀ r c : Int,
        (∃ k ∈ done ++ rest, (row_begin rows N k : Int) ≤ r ∧
          r < (row_end rows N k : Int)) →
        0 ≤ c → c < (cols : Int) →
        rest.foldl (fun g i => run_worker g0 rows cols N i g) grid r c =
          next_state (g0 r c) (neighbor_count g0 r c)) ∧
      (∀ r c : Int,
        (¬ ∃ k ∈ done ++ rest, (row_begin rows N k : Int) ≤ r ∧
          r < (row_end rows N k : Int)) ∨ ¬(0 ≤ c ∧ c < (cols : Int)) →
        rest.foldl (fun g i => run_worker g0 rows cols N i g) grid r c =
          g0 r c) := by
  intro rest
  induction rest with
  | nil =>
    intro done grid hnd hcov hunc
    constructor
    · intro r c hex h1 h2
      exact hcov r c (by simpa using hex) h1 h2
    · intro r c h
      exact hunc r c (by simpa using h)
  | cons k rest ih =>
    intro done grid hnd hcov hunc
    simp only [List.foldl_cons]
    have hkdone : k ∉ done := by
      intro hmem
      have hdis := List.disjoint_of_nodup_append hnd
      exact hdis hmem (by simp)
    have hgrid : ∀ r c : Int, (row_begin rows N k : Int) ≤ r →
        r < (row_end rows N k : Int) → grid r c = g0 r c := by
      intro r c hlo hhi
      apply hunc
      left
      rintro ⟨k2, hk2, hlo2, hhi2⟩
      by_cases hkk : k2 = k
      · subst hkk; exact hkdone hk2
      · exact ranges_disjoint rows N k2 k hkk r ⟨hlo2, hhi2, hlo, hhi⟩
    have hg1 := run_worker_spec g0 grid rows cols N k hgrid
    have hnd2 : ((done ++ [k]) ++ rest).Nodup := by
      have heq : done ++ k :: rest = (done ++ [k]) ++ rest := by simp
      rw [← heq]
      exact hnd
    have hcov2 : ∀ r c : Int,
        (∃ k2 ∈ done ++ [k], (row_begin rows N k2 : Int) ≤ r ∧
          r < (row_end rows N k2 : Int)) →
        0 ≤ c → c < (cols : Int) →
        run_worker g0 rows cols N k grid r c =
          next_state (g0 r c) (neighbor_count g0 r c) := by
      intro r c hex h1 h2
      rw [hg1 r c]
      rcases hex with ⟨k2, hk2mem, hlo, hhi⟩
      rcases List.mem_append.mp hk2mem with hmem | hmem
      · by_cases hink : (row_begin rows N k : Int) ≤ r ∧
            r < (row_end rows N k : Int) ∧ 0 ≤ c ∧ c < (cols : Int)
        · rw [if_pos hink]
        · rw [if_neg hink]
          exact hcov r c ⟨k2, hmem, hlo, hhi⟩ h1 h2
      · have hk2k : k2 = k := by simpa using hmem
        subst hk2k
        rw [if_pos ⟨hlo, hhi, h1, h2⟩]
    have hunc2 : ∀ r c : Int,
        (¬ ∃ k2 ∈ done ++ [k], (row_begin rows N k2 : Int) ≤ r ∧
          r < (row_end rows N k2 : Int)) ∨ ¬(0 ≤ c ∧ c < (cols : Int)) →
        run_worker g0 rows cols N k grid r c = g0 r c := by
      intro r c h
      rw [hg1 r c]
      rcases h with h | h
      · rw [if_neg]
        · apply hunc
          left
          rintro ⟨k2, hm, hlo, hhi⟩
          exact h ⟨k2, by simp [hm], hlo, hhi⟩
        · rintro ⟨hlo, hhi, h1, h2⟩
          exact h ⟨k, by simp, hlo, hhi⟩
      · rw [if_neg (by rintro ⟨hlo, hhi, h1, h2⟩; exact h ⟨h1, h2⟩)]
        exact hunc r c (Or.inr h)
    have hres := ih (done ++ [k]) (run_worker g0 rows cols N k grid)
      hnd2 hcov2 hunc2
    constructor
    · intro r c hex h1 h2
      apply hres.1 r c _ h1 h2
      rcases hex with ⟨k2, hm, hrest2⟩
      refine ⟨k2, ?_, hrest2⟩
      simp only [List.mem_append, List.mem_cons, List.mem_singleton] at hm ⊢
      tauto
    · intro r c h
      apply hres.2 r c
      rcases h with h | h
      · left
        rintro ⟨k2, hm, hrest2⟩
        apply h
        refine ⟨k2, ?_, hrest2⟩
        simp only [List.mem_append, List.mem_cons, List.mem_singleton] at hm ⊢
        tauto
      · right; exact h

/-- Main correctness of one pool generation: whenever the row count is
divisible by the worker count and every worker runs exactly once (in any
order), the generation computes exactly the pure synchronous step of the
whole grid. -/
theorem update_grid_eq_pure_step (g : Grid) (rows cols N : Nat)
    (order : List Nat) (hN : 0 < N) (hdvd : N ∣ rows)
    (hperm : order.Perm (List.range N)) :
    update_grid g rows cols N order = pure_step g rows cols := by
  funext r c
  unfold update_grid pure_step
  have hnd : (([] : List Nat) ++ order).Nodup := by
    simpa using hperm.nodup_iff.mpr (List.nodup_range _)
  have hmain := update_fold_go g rows cols N order [] g hnd
    (by rintro r2 c2 ⟨k, hk, _⟩ _ _; simp at hk)
    (fun r2 c2 _ => rfl)
  by_cases hin : 0 ≤ r ∧ r < (rows : Int) ∧ 0 ≤ c ∧ c < (cols : Int)
  · rw [if_pos hin]
    obtain ⟨h1, h2, h3, h4⟩ := hin
    apply hmain.1 r c _ h3 h4
    obtain ⟨i, hiN, hlo, hhi⟩ := covered_exists rows N hN hdvd r h1 h2
    have hmem : i ∈ order := hperm.mem_iff.mpr (List.mem_range.mpr hiN)
    exact ⟨i, by simpa using hmem, hlo, hhi⟩
  · rw [if_neg hin]
    apply hmain.2 r c
    by_cases hc : 0 ≤ c ∧ c < (cols : Int)
    · left
      rintro ⟨k, hk, hlo, hhi⟩
      have hkN : k < N :=
        List.mem_range.mp (hperm.mem_iff.mp (by simpa using hk))
      have hre : row_end rows N k ≤ rows := by
        obtain ⟨q, hq⟩ := hdvd
        have hqd : rows / N = q := by
          rw [hq]; exact Nat.mul_div_cancel_left q hN
        unfold row_end
        rw [hqd]
        calc q * (k + 1) ≤ q * N := Nat.mul_le_mul (Nat.le_refl _) (by omega)
          _ = rows := by rw [hq]; ring
      have hreI : (row_end rows N k : Int) ≤ (rows : Int) := by exact_mod_cast hre
      have hb0 : (0 : Int) ≤ (row_begin rows N k : Int) := by positivity
      exact hin ⟨by omega, by omega, hc⟩
    · right; exact hc

/-- The row loop never reads the incoming `curr` component of its state:
each iteration overwrites `curr` with a fresh copy of the current row before
any use. -/
theorem fold_row_body_curr (border : Row) (row_end cols : Nat) :
    ∀ (l : List Nat) (g : Grid) (a c1 c2 : Row),
      (l.foldl (row_body border row_end cols) ⟨g, a, c1⟩).grid =
        (l.foldl (row_body border row_end cols) ⟨g, a, c2⟩).grid := by
  intro l
  induction l with
  | nil => intro g a c1 c2; rfl
  | cons i t ih =>
    intro g a c1 c2
    simp only [List.foldl_cons]
    have hstep : row_body border row_end cols ⟨g, a, c1⟩ i =
        row_body border row_end cols ⟨g, a, c2⟩ i := rfl
    rw [hstep]

/-- The grid produced by the kernel does not depend on the incoming
`current` buffer: the kernel recomputes it for each row before reading it. -/
theorem sub_update_curr_irrel (g : Grid) (above c1 c2 border : Row)
    (row_begin row_end cols : Nat) :
    sub_update g above c1 border row_begin row_end cols =
      sub_update g above c2 border row_begin row_end cols := by
  unfold sub_update
  exact fold_row_body_curr border row_end cols _ g above c1 c2

/-- Unfolding equation for repeated generations. -/
theorem run_generations_cons (g : Grid) (rows cols N : Nat) (o : List Nat)
    (t : List (List Nat)) :
    run_generations g rows cols N (o :: t) =
      run_generations (update_grid g rows cols N o) rows cols N t := rfl

/-- Repeated pool generations compute the iterated pure step, one iteration
per generation, whichever execution order each generation used. -/
theorem run_generations_eq_iterate (rows cols N : Nat) (hN : 0 < N)
    (hdvd : N ∣ rows) :
    ∀ (orders : List (List Nat)) (g : Grid),
      (∀ ord ∈ orders, ord.Perm (List.range N)) →
      run_generations g rows cols N orders =
        (fun gg => pure_step gg rows cols)^[orders.length] g := by
  intro orders
  induction orders with
  | nil => intro g _; rfl
  | cons o t ih =>
    intro g horders
    rw [run_generations_cons,
      update_grid_eq_pure_step g rows cols N o hN hdvd (horders o (by simp)),
      List.length_cons, Function.iterate_succ_apply]
    exact ih (pure_step g rows cols) (fun ord h => horders ord (by simp [h]))

/-- Value of the completion counter after `k` spawned-worker completions. -/
theorem signal_after_eq (k : Nat) : signal_after k = k := by
  induction k with
  | zero => rfl
  | succ k ih =>
    unfold signal_after at ih ⊢
    rw [Function.iterate_succ_apply', ih]
    rfl

end NonDoubleBuffer

/-! ## Characterization of the naive reference -/

namespace SingleThreaded

open Dense (Grid)

/-- Neighbor accumulation of the reference coincides with the shared
eight-neighbor count (same cells, same read order). -/
theorem st_alive_neighbors_eq (prev : Grid) (i j : Int) :
    alive_neighbors prev i j = neighbor_count prev i j := rfl

/-- Pointwise form of the reference's per-cell body: only the cell `(i, j)`
of the destination grid can change; an alive source cell gets `next_state`,
a dead one is written only when its count is exactly 3. -/
theorem cell_body_apply (prev : Grid) (i j : Nat) (curr : Grid) (r c : Int) :
    cell_body prev i j curr r c =
      if r = (i : Int) ∧ c = (j : Int) then
        (if prev (i : Int) (j : Int) then
          next_state true (neighbor_count prev (i : Int) (j : Int))
        else if neighbor_count prev (i : Int) (j : Int) = 3 then true
        else curr r c)
      else curr r c := by
  rcases hg : prev (i : Int) (j : Int) with _ | _ <;>
  by_cases hn2 : neighbor_count prev (i : Int) (j : Int) < 2 <;>
  by_cases hn23 : neighbor_count prev (i : Int) (j : Int) = 2 ∨
    neighbor_count prev (i : Int) (j : Int) = 3 <;>
  by_cases hn3 : neighbor_count prev (i : Int) (j : Int) > 3 <;>
  by_cases hne3 : neighbor_count prev (i : Int) (j : Int) = 3 <;>
  by_cases hne2 : neighbor_count prev (i : Int) (j : Int) = 2 <;>
  by_cases hrc : r = (i : Int) ∧ c = (j : Int) <;>
  simp [cell_body, Dense.set_cell, Dense.get_cell, next_state,
    st_alive_neighbors_eq, hg, hn2, hn23, hn3, hne3, hne2, hrc] <;>
  omega

/-- Invariant of the reference's column loop on one destination row. -/
theorem st_fold_cols (prev : Grid) (i : Nat) :
    ∀ (k m : Nat) (curr : Grid) (r c : Int),
      ((List.range' m k).foldl (fun c2 j => cell_body prev i j c2) curr) r c =
        if r = (i : Int) ∧ (m : Int) ≤ c ∧ c < ((m + k : Nat) : Int) then
          (if prev r c then next_state true (neighbor_count prev r c)
          else if neighbor_count prev r c = 3 then true
          else curr r c)
        else curr r c := by
  intro k
  induction k with
  | zero =>
    intro m curr r c
    simp only [List.range'_zero, List.foldl_nil]
    rw [if_neg]
    rintro ⟨_, h1, h2⟩
    omega
  | succ k ih =>
    intro m curr r c
    rw [List.range'_succ, List.foldl_cons]
    have hres := ih (m + 1) (cell_body prev i m curr) r c
    rw [hres]
    by_cases h1 : r = (i : Int) ∧ ((m + 1 : Nat) : Int) ≤ c ∧
        c < ((m + 1 + k : Nat) : Int)
    · have h1b : r = (i : Int) ∧ (m : Int) ≤ c ∧ c < ((m + (k + 1) : Nat) : Int) := by
        obtain ⟨hx, hy, hz⟩ := h1
        refine ⟨hx, ?_, ?_⟩ <;> push_cast at hy hz ⊢ <;> omega
      rw [if_pos h1, if_pos h1b]
      have hcb : cell_body prev i m curr r c = curr r c := by
        rw [cell_body_apply, if_neg]
        rintro ⟨_, hcm⟩
        obtain ⟨hx, hy, hz⟩ := h1
        rw [hcm] at hy
        push_cast at hy
        omega
      rw [hcb]
    · rw [if_neg h1, cell_body_apply]
      by_cases h2 : r = (i : Int) ∧ c = (m : Int)
      · have h2b : r = (i : Int) ∧ (m : Int) ≤ c ∧ c < ((m + (k + 1) : Nat) : Int) := by
          refine ⟨h2.1, by rw [h2.2], by rw [h2.2]; push_cast; omega⟩
        rw [if_pos h2, if_pos h2b, h2.1, h2.2]
      · rw [if_neg h2, if_neg]
        rintro ⟨hr, hlo, hhi⟩
        by_cases hcm : c = (m : Int)
        · exact h2 ⟨hr, hcm⟩
        · exact h1 ⟨hr, by push_cast at hlo ⊢; omega, by push_cast at hhi ⊢; omega⟩

/-- Invariant of the reference's row loop. -/
theorem st_fold_rows (prev : Grid) (cols : Nat) :
    ∀ (k i : Nat) (curr : Grid) (r c : Int),
      ((List.range' i k).foldl
        (fun cg i2 => (List.range cols).foldl
          (fun c2 j => cell_body prev i2 j c2) cg) curr) r c =
        if (i : Int) ≤ r ∧ r < ((i + k : Nat) : Int) ∧ 0 ≤ c ∧ c < (cols : Int) then
          (if prev r c then next_state true (neighbor_count prev r c)
          else if neighbor_count prev r c = 3 then true
          else curr r c)
        else curr r c := by
  intro k
  induction k with
  | zero =>
    intro i curr r c
    simp only [List.range'_zero, List.foldl_nil]
    rw [if_neg]
    rintro ⟨h1, h2, _⟩
    omega
  | succ k ih =>
    intro i curr r c
    rw [List.range'_succ, List.foldl_cons]
    have hrow : ∀ r2 c2 : Int,
        ((List.range cols).foldl (fun c2 j => cell_body prev i j c2) curr) r2 c2 =
          if r2 = (i : Int) ∧ 0 ≤ c2 ∧ c2 < (cols : Int) then
            (if prev r2 c2 then next_state true (neighbor_count prev r2 c2)
            else if neighbor_count prev r2 c2 = 3 then true
            else curr r2 c2)
          else curr r2 c2 := by
      intro r2 c2
      rw [List.range_eq_range']
      have := st_fold_cols prev i cols 0 curr r2 c2
      simpa using this
    have hres := ih (i + 1)
      ((List.range cols).foldl (fun c2 j => cell_body prev i j c2) curr) r c
    rw [hres]
    by_cases h1 : ((i + 1 : Nat) : Int) ≤ r ∧ r < ((i + 1 + k : Nat) : Int) ∧
        0 ≤ c ∧ c < (cols : Int)
    · have h1b : (i : Int) ≤ r ∧ r < ((i + (k + 1) : Nat) : Int) ∧
          0 ≤ c ∧ c < (cols : Int) := by
        obtain ⟨hx, hy, hz⟩ := h1
        refine ⟨?_, ?_, hz⟩ <;> push_cast at hx hy ⊢ <;> omega
      rw [if_pos h1, if_pos h1b]
      have hcb : ((List.range cols).foldl (fun c2 j => cell_body prev i j c2) curr) r c
          = curr r c := by
        rw [hrow, if_neg]
        rintro ⟨hr, _⟩
        obtain ⟨hx, _, _⟩ := h1
        rw [hr] at hx
        push_cast at hx
        omega
      rw [hcb]
    · rw [if_neg h1, hrow]
      by_cases h2 : r = (i : Int) ∧ 0 ≤ c ∧ c < (cols : Int)
      · have h2b : (i : Int) ≤ r ∧ r < ((i + (k + 1) : Nat) : Int) ∧
            0 ≤ c ∧ c < (cols : Int) := by
          refine ⟨le_of_eq h2.1.symm, by rw [h2.1]; push_cast; omega,
            h2.2.1, h2.2.2⟩
        rw [if_pos h2, if_pos h2b]
      · rw [if_neg h2, if_neg]
        rintro ⟨hlo, hhi, hc0, hcc⟩
        by_cases hri : r = (i : Int)
        · exact h2 ⟨hri, hc0, hcc⟩
        · exact h1 ⟨by push_cast at hlo ⊢; omega, by push_cast at hhi ⊢; omega,
            hc0, hcc⟩

/-- Characterization of one pass of the naive reference when source and
destination start equal (as `main` arranges with `copy_grid`): it computes
exactly the pure synchronous step. -/
theorem st_update_grid_eq_pure_step (g : Grid) (rows cols : Nat) :
    update_grid g g rows cols = pure_step g rows cols := by
  funext r c
  unfold update_grid pure_step
  have := st_fold_rows g cols rows 0 g r c
  simp only [Nat.zero_add, Nat.cast_zero] at this
  rw [← List.range_eq_range'] at this
  rw [this]
  by_cases hin : 0 ≤ r ∧ r < (rows : Int) ∧ 0 ≤ c ∧ c < (cols : Int)
  · rw [if_pos hin, if_pos hin]
    rcases hg : g r c with _ | _
    · by_cases hn : neighbor_count g r c = 3 <;> simp [next_state, hn, hg]
    · simp [next_state, hg]
  · rw [if_neg hin, if_neg hin]

end SingleThreaded

/-! ## Claim analysis -/

/-- The one-worker execution order is a permutation of the worker set. -/
theorem perm_singleton_range_one : ([0] : List Nat).Perm (List.range 1) := by
  decide

/-- The factored kernel rule equals the canonical rule of the
specification, for every cell state and neighbor count. -/
theorem next_state_eq_spec_rule (alive : Bool) (n : Nat) :
    next_state alive n = spec_rule alive n := by
  cases alive <;>
  by_cases h2 : n = 2 <;> by_cases h3 : n = 3 <;>
  by_cases hlt : n < 2 ∨ n > 3 <;>
  simp [next_state, spec_rule, h2, h3, hlt] <;> omega

/-- C4: reading a cell right after setting it returns the stored value, for
in-range coordinates, in both the dense encoding and the packed
byte-and-bit encoding. -/
theorem C4_get_after_set_roundtrip (dg : Dense.Grid) (pg : Packed.Mem)
    (r c : Int) (v : Bool)
    (h1 : 0 ≤ r) (h2 : r < (CELL_ROW_COUNT : Int))
    (h3 : 0 ≤ c) (h4 : c < (CELL_COL_COUNT : Int)) :
    Dense.get_cell (Dense.set_cell dg r c v) r c = v ∧
      Packed.get_cell (Packed.set_cell pg r c v) r c = v := by
  constructor
  · simp [Dense.get_cell, Dense.set_cell]
  · exact Packed.get_set_same pg r c v (by omega)

/-- Witness for C4 at a concrete coordinate and grid. -/
theorem C4_get_after_set_roundtrip_witness :
    (0 : Int) ≤ 2 ∧ (2 : Int) < (CELL_ROW_COUNT : Int) ∧
      (0 : Int) ≤ 3 ∧ (3 : Int) < (CELL_COL_COUNT : Int) ∧
      (Dense.get_cell (Dense.set_cell (fun _ _ => false) 2 3 true) 2 3 = true ∧
        Packed.get_cell (Packed.set_cell (fun _ => 0) 2 3 true) 2 3 = true) :=
  ⟨by decide, by decide, by decide, by decide,
    C4_get_after_set_roundtrip (fun _ _ => false) (fun _ => 0) 2 3 true
      (by decide) (by decide) (by decide) (by decide)⟩

/-- C10: in the packed encoding, setting one in-range cell changes no other
dereferenceable cell, border coordinates included. -/
theorem C10_set_cell_frame (pg : Packed.Mem) (row col : Int) (v : Bool)
    (r c : Int)
    (h1 : 0 ≤ row) (h2 : row < (CELL_ROW_COUNT : Int))
    (h3 : 0 ≤ col) (h4 : col < (CELL_COL_COUNT : Int))
    (h5 : -1 ≤ r) (h6 : r ≤ (CELL_ROW_COUNT : Int))
    (h7 : -1 ≤ c) (h8 : c ≤ (CELL_COL_COUNT : Int))
    (hne : ¬(r = row ∧ c = col)) :
    Packed.get_cell (Packed.set_cell pg row col v) r c =
      Packed.get_cell pg r c :=
  Packed.get_set_other pg row col v r c (by omega) (by omega) (by omega)
    (by omega) h5 h6 h7 h8 hne

/-- Witness for C10: a same-byte neighboring cell and a border cell are both
untouched by a concrete store. -/
theorem C10_set_cell_frame_witness :
    (0 : Int) ≤ 0 ∧ (0 : Int) < (CELL_ROW_COUNT : Int) ∧
      (0 : Int) ≤ 0 ∧ (0 : Int) < (CELL_COL_COUNT : Int) ∧
      (-1 : Int) ≤ 0 ∧ (0 : Int) ≤ (CELL_ROW_COUNT : Int) ∧
      (-1 : Int) ≤ 1 ∧ (1 : Int) ≤ (CELL_COL_COUNT : Int) ∧
      ¬((0 : Int) = 0 ∧ (1 : Int) = 0) ∧
      Packed.get_cell (Packed.set_cell (fun _ => 0) 0 0 true) 0 1 =
        Packed.get_cell (fun _ => 0) 0 1 :=
  ⟨by decide, by decide, by decide, by decide, by decide, by decide,
    by decide, by decide, by decide,
    C10_set_cell_frame (fun _ => 0) 0 0 true 0 1 (by decide) (by decide)
      (by decide) (by decide) (by decide) (by decide) (by decide) (by decide)
      (by decide)⟩

/-- C9: `create_threads` has no failure path.  Even when every one of its
six allocations returns NULL, it stores the NULL results and returns the
`thread_info` unconditionally — the handle looks exactly like a successful
construction, so allocation failure is not surfaced to the caller (the
specification requires it to be). -/
theorem C9_create_threads_ignores_allocation_failure :
    NonDoubleBuffer.create_threads none none none none none none =
      some { running := none, signal := none, cv := none, cv_mtx := none,
             threads := none, params := none } := rfl

/-- Counterexample for C5 as stated: within one generation, the driver's
compare-exchange succeeds (and the driver proceeds) when the counter holds
`THREAD_COUNT - 1 = 7`; the counter never reaches `THREAD_COUNT = 8`
because the driving thread performs no increment. -/
theorem C5_counterexample :
    NonDoubleBuffer.driver_can_proceed THREAD_COUNT
        (NonDoubleBuffer.signal_after (THREAD_COUNT - 1)) = true ∧
      NonDoubleBuffer.signal_after (THREAD_COUNT - 1) = 7 ∧
      THREAD_COUNT = 8 := by
  decide

/-- C5 (amended): each of the `THREAD_COUNT - 1` spawned workers increments
the counter by exactly one on completing its row range; the driving thread
adds nothing; within a generation the counter never exceeds
`THREAD_COUNT - 1`, and the driver proceeds exactly when it reaches
`THREAD_COUNT - 1`. -/
theorem C5_signal_protocol (k : Nat) (hk : k ≤ THREAD_COUNT - 1) :
    NonDoubleBuffer.signal_after k = k ∧
      NonDoubleBuffer.signal_after k ≤ THREAD_COUNT - 1 ∧
      (NonDoubleBuffer.driver_can_proceed THREAD_COUNT
          (NonDoubleBuffer.signal_after k) = true ↔ k = THREAD_COUNT - 1) := by
  have h := NonDoubleBuffer.signal_after_eq k
  refine ⟨h, by omega, ?_⟩
  rw [h]
  unfold NonDoubleBuffer.driver_can_proceed
  simp

/-- Witness for the amended C5 with three completed workers. -/
theorem C5_signal_protocol_witness :
    3 ≤ THREAD_COUNT - 1 ∧
      (NonDoubleBuffer.signal_after 3 = 3 ∧
        NonDoubleBuffer.signal_after 3 ≤ THREAD_COUNT - 1 ∧
        (NonDoubleBuffer.driver_can_proceed THREAD_COUNT
            (NonDoubleBuffer.signal_after 3) = true ↔ 3 = THREAD_COUNT - 1)) :=
  ⟨by decide, C5_signal_protocol 3 (by decide)⟩

/-- C7: with the row count divisible by the worker count, the per-worker
ranges assigned at pool creation start at 0, are adjacent, end at `rows`,
and every logical row belongs to exactly one worker's range. -/
theorem C7_partition (rows N : Nat) (hN : 0 < N) (hdvd : N ∣ rows) :
    NonDoubleBuffer.row_begin rows N 0 = 0 ∧
      (∀ i, NonDoubleBuffer.row_end rows N i =
        NonDoubleBuffer.row_begin rows N (i + 1)) ∧
      NonDoubleBuffer.row_end rows N (N - 1) = rows ∧
      (∀ r : Nat, r < rows → ∃! i, i < N ∧
        NonDoubleBuffer.row_begin rows N i ≤ r ∧
        r < NonDoubleBuffer.row_end rows N i) := by
  obtain ⟨q, hq⟩ := hdvd
  have hqd : rows / N = q := by
    rw [hq]; exact Nat.mul_div_cancel_left q hN
  refine ⟨by simp [NonDoubleBuffer.row_begin], fun i => rfl, ?_, ?_⟩
  · unfold NonDoubleBuffer.row_end
    rw [hqd]
    have hN1 : N - 1 + 1 = N := by omega
    rw [hN1, hq]
    ring
  · intro r hr
    have hq0 : 0 < q := by
      rcases Nat.eq_zero_or_pos q with h | h
      · subst h; omega
      · exact h
    have hdm := Nat.div_add_mod r q
    have hml := Nat.mod_lt r hq0
    refine ⟨r / q, ⟨?_, ?_, ?_⟩, ?_⟩
    · exact (Nat.div_lt_iff_lt_mul hq0).mpr (by omega)
    · unfold NonDoubleBuffer.row_begin
      rw [hqd]
      omega
    · unfold NonDoubleBuffer.row_end
      rw [hqd]
      have hmm : q * (r / q + 1) = q * (r / q) + q := by ring
      omega
    · rintro j ⟨hjN, hj1, hj2⟩
      unfold NonDoubleBuffer.row_begin at hj1
      unfold NonDoubleBuffer.row_end at hj2
      rw [hqd] at hj1 hj2
      have hj1b : j * q ≤ r := by rw [Nat.mul_comm]; omega
      have hj2b : r < (j + 1) * q := by rw [Nat.mul_comm]; omega
      have ha : j ≤ r / q := (Nat.le_div_iff_mul_le hq0).mpr hj1b
      have hb : r / q < j + 1 := (Nat.div_lt_iff_lt_mul hq0).mpr hj2b
      omega

/-- Witness for C7 with 8 rows and 4 workers. -/
theorem C7_partition_witness :
    0 < 4 ∧ (4 : Nat) ∣ 8 ∧
      (NonDoubleBuffer.row_begin 8 4 0 = 0 ∧
        (∀ i, NonDoubleBuffer.row_end 8 4 i =
          NonDoubleBuffer.row_begin 8 4 (i + 1)) ∧
        NonDoubleBuffer.row_end 8 4 (4 - 1) = 8 ∧
        (∀ r : Nat, r < 8 → ∃! i, i < 4 ∧
          NonDoubleBuffer.row_begin 8 4 i ≤ r ∧
          r < NonDoubleBuffer.row_end 8 4 i)) :=
  ⟨by decide, by decide, C7_partition 8 4 (by decide) (by decide)⟩

/-- C2: a single-worker pool generation (above seeded from the row above
`row_begin = 0`, border snapshotted from the row below `row_end - 1`, kernel
run in place over all rows) produces, cell for cell, the same grid as the
naive non-parallel double-buffered reference run on the same grid. -/
theorem C2_single_worker_matches_reference (g : Dense.Grid) (rows cols : Nat) :
    NonDoubleBuffer.update_grid g rows cols 1 [0] =
      SingleThreaded.update_grid g g rows cols := by
  rw [NonDoubleBuffer.update_grid_eq_pure_step g rows cols 1 [0] (by omega)
      (one_dvd rows) perm_singleton_range_one,
    SingleThreaded.st_update_grid_eq_pure_step]

/-- C3: the kernels' per-cell update is the canonical two-state
eight-neighbor rule: the neighbor count is a sum of eight cell reads (hence
in `[0, 8]`), the canonical rule makes a cell live exactly when (alive and
count 2 or 3) or (dead and count exactly 3), and both the worker kernel's
column body and the reference's cell body write precisely that rule's
result to the cell they process. -/
theorem C3_kernel_implements_canonical_rule :
    (∀ (grid : Dense.Grid) (above curr border : Row) (row_end i j : Nat),
      NonDoubleBuffer.alive_neighbors grid above curr border row_end i j ≤ 8) ∧
    (∀ (alive : Bool) (n : Nat),
      spec_rule alive n = true ↔
        ((alive = true ∧ (n = 2 ∨ n = 3)) ∨ (alive = false ∧ n = 3))) ∧
    (∀ (grid : Dense.Grid) (above curr border : Row) (row_end i j : Nat),
      NonDoubleBuffer.col_body above curr border row_end i grid j
          (i : Int) (j : Int) =
        spec_rule (Dense.get_cell grid (i : Int) (j : Int))
          (NonDoubleBuffer.alive_neighbors grid above curr border row_end i j)) ∧
    (∀ (prev cu : Dense.Grid) (i j : Nat),
      Dense.get_cell cu (i : Int) (j : Int) =
          Dense.get_cell prev (i : Int) (j : Int) →
      SingleThreaded.cell_body prev i j cu (i : Int) (j : Int) =
        spec_rule (Dense.get_cell prev (i : Int) (j : Int))
          (neighbor_count prev (i : Int) (j : Int))) := by
  refine ⟨NonDoubleBuffer.alive_neighbors_le, ?_, ?_, ?_⟩
  · intro alive n
    cases alive <;> simp [spec_rule]
  · intro grid above curr border row_end i j
    rw [NonDoubleBuffer.col_body_apply, if_pos ⟨rfl, rfl⟩,
      next_state_eq_spec_rule]
    rfl
  · intro prev cu i j hcu
    rw [SingleThreaded.cell_body_apply, if_pos ⟨rfl, rfl⟩]
    rcases hg : prev (i : Int) (j : Int) with _ | _
    · unfold Dense.get_cell at hcu ⊢
      rw [hg] at hcu ⊢
      by_cases hn : neighbor_count prev (i : Int) (j : Int) = 3 <;>
        simp [spec_rule, hn, hcu]
    · unfold Dense.get_cell
      rw [if_pos rfl, hg]
      exact next_state_eq_spec_rule true _

/-- Witness for C3's conditional part at a concrete dead cell with equal
source and destination. -/
theorem C3_kernel_implements_canonical_rule_witness :
    Dense.get_cell all_dead 0 0 = Dense.get_cell all_dead 0 0 ∧
      SingleThreaded.cell_body all_dead 0 0 all_dead 0 0 =
        spec_rule (Dense.get_cell all_dead 0 0)
          (neighbor_count all_dead 0 0) :=
  ⟨rfl, C3_kernel_implements_canonical_rule.2.2.2 all_dead all_dead 0 0 rfl⟩

/-- Counterexample for C6 as stated: the driver's snapshot phase DOES
pre-copy the current buffer.  For worker 0 of a 4-worker pool on the grid
with cell `(0, 0)` alive, refreshing buffers overwrites the (previously
all-dead) current buffer with grid row `row_begin = 0`, so its cell 0
changes from dead to alive. -/
theorem C6_counterexample :
    NonDoubleBuffer.row_begin 4 4 0 = 0 ∧
      dead_buffers.current_buffer 0 = false ∧
      (NonDoubleBuffer.refresh_buffers one_live_cell 4 4 0
          dead_buffers).current_buffer 0 = true :=
  ⟨rfl, by rfl, by rfl⟩

/-- C6 (amended): during the pre-generation snapshot phase the driver
refreshes all three buffers of every worker — `above` from the grid row
immediately above `row_begin`, `current` from row `row_begin` itself, and
`border` from the row immediately below `row_end - 1`.  The pre-copied
current buffer is redundant: the kernel overwrites `curr` at the start of
each row before reading it, so the grid the kernel produces does not depend
on the incoming current buffer. -/
theorem C6_snapshot_phase (grid : Dense.Grid) (rows N i : Nat)
    (old : NonDoubleBuffer.WorkerBuffers) :
    (NonDoubleBuffer.refresh_buffers grid rows N i old).above_buffer =
      NonDoubleBuffer.copy_row grid ((NonDoubleBuffer.row_begin rows N i : Int) - 1) ∧
    (NonDoubleBuffer.refresh_buffers grid rows N i old).current_buffer =
      NonDoubleBuffer.copy_row grid (NonDoubleBuffer.row_begin rows N i : Int) ∧
    (NonDoubleBuffer.refresh_buffers grid rows N i old).border_buffer =
      NonDoubleBuffer.copy_row grid (NonDoubleBuffer.row_end rows N i : Int) ∧
    (∀ (g : Dense.Grid) (above cu1 cu2 border : Row) (rb re cols : Nat),
      NonDoubleBuffer.sub_update g above cu1 border rb re cols =
        NonDoubleBuffer.sub_update g above cu2 border rb re cols) :=
  ⟨rfl, rfl, rfl, fun g above cu1 cu2 border rb re cols =>
    NonDoubleBuffer.sub_update_curr_irrel g above cu1 cu2 border rb re cols⟩

/-- Counterexample for C8 as stated: border-cell values are NOT irrelevant
to the generation's output.  `all_dead` and `live_top_border` agree on
every logical cell of a 1-by-1 grid, yet one generation leaves the single
logical cell dead for the former and makes it alive for the latter (the
three live border cells in row `-1` are counted as neighbors). -/
theorem C8_counterexample :
    (∀ r c : Int, 0 ≤ r → r < 1 → 0 ≤ c → c < 1 →
      all_dead r c = live_top_border r c) ∧
      NonDoubleBuffer.update_grid all_dead 1 1 1 [0] 0 0 = false ∧
      NonDoubleBuffer.update_grid live_top_border 1 1 1 [0] 0 0 = true := by
  refine ⟨?_, by rfl, by rfl⟩
  intro r c h1 h2 _ _
  have : r = 0 := by omega
  subst this
  rfl

/-- C8 (amended): the generation's output is determined by the physical
grid — the logical cells together with the one-cell border ring.  Two grids
that agree on all of `[-1, rows] × [-1, cols]` produce identical values on
every logical cell (border values do flow into edge cells' neighbor
counts, which is why the ring must agree), and the generation never writes
outside the logical cells. -/
theorem C8_border_ring_determines_output (gA gB : Dense.Grid) (rows cols : Nat)
    (hagree : ∀ r c : Int, -1 ≤ r → r ≤ (rows : Int) → -1 ≤ c →
      c ≤ (cols : Int) → gA r c = gB r c) :
    (∀ r c : Int, 0 ≤ r → r < (rows : Int) → 0 ≤ c → c < (cols : Int) →
      NonDoubleBuffer.update_grid gA rows cols 1 [0] r c =
        NonDoubleBuffer.update_grid gB rows cols 1 [0] r c) ∧
    (∀ r c : Int, ¬(0 ≤ r ∧ r < (rows : Int) ∧ 0 ≤ c ∧ c < (cols : Int)) →
      NonDoubleBuffer.update_grid gA rows cols 1 [0] r c = gA r c) := by
  have hA := NonDoubleBuffer.update_grid_eq_pure_step gA rows cols 1 [0]
    (by omega) (one_dvd rows) perm_singleton_range_one
  have hB := NonDoubleBuffer.update_grid_eq_pure_step gB rows cols 1 [0]
    (by omega) (one_dvd rows) perm_singleton_range_one
  constructor
  · intro r c h1 h2 h3 h4
    rw [hA, hB]
    unfold pure_step
    rw [if_pos ⟨h1, h2, h3, h4⟩, if_pos ⟨h1, h2, h3, h4⟩]
    have hc : gA r c = gB r c :=
      hagree r c (by omega) (by omega) (by omega) (by omega)
    have hn : neighbor_count gA r c = neighbor_count gB r c := by
      unfold neighbor_count b2n
      rw [hagree (r - 1) (c - 1) (by omega) (by omega) (by omega) (by omega),
        hagree (r - 1) c (by omega) (by omega) (by omega) (by omega),
        hagree (r - 1) (c + 1) (by omega) (by omega) (by omega) (by omega),
        hagree r (c - 1) (by omega) (by omega) (by omega) (by omega),
        hagree r (c + 1) (by omega) (by omega) (by omega) (by omega),
        hagree (r + 1) (c - 1) (by omega) (by omega) (by omega) (by omega),
        hagree (r + 1) c (by omega) (by omega) (by omega) (by omega),
        hagree (r + 1) (c + 1) (by omega) (by omega) (by omega) (by omega)]
    rw [hc, hn]
  · intro r c h
    rw [hA]
    unfold pure_step
    rw [if_neg h]

/-- Witness for the amended C8 on a concrete 1-by-1 grid. -/
theorem C8_border_ring_determines_output_witness :
    (∀ r c : Int, -1 ≤ r → r ≤ (1 : Int) → -1 ≤ c → c ≤ (1 : Int) →
      all_dead r c = all_dead r c) ∧
      ((∀ r c : Int, 0 ≤ r → r < (1 : Int) → 0 ≤ c → c < (1 : Int) →
        NonDoubleBuffer.update_grid all_dead 1 1 1 [0] r c =
          NonDoubleBuffer.update_grid all_dead 1 1 1 [0] r c) ∧
      (∀ r c : Int, ¬(0 ≤ r ∧ r < (1 : Int) ∧ 0 ≤ c ∧ c < (1 : Int)) →
        NonDoubleBuffer.update_grid all_dead 1 1 1 [0] r c = all_dead r c)) :=
  ⟨fun _ _ _ _ _ _ => rfl,
    C8_border_ring_determines_output all_dead all_dead 1 1
      (fun _ _ _ _ _ _ => rfl)⟩

/-- C1: an N-worker pool and a 1-worker pool run from the same initial grid
for the same number of generations produce identical final grids, for every
worker count in `{1, 2, 4, 8}` with the row count divisible by it,
whatever order the workers of each generation execute in. -/
theorem C1_partitioning_preserves_outcome (g : Dense.Grid) (rows cols N : Nat)
    (orders ordersOne : List (List Nat))
    (hN : N = 1 ∨ N = 2 ∨ N = 4 ∨ N = 8)
    (hdvd : N ∣ rows)
    (horders : ∀ ord ∈ orders, ord.Perm (List.range N))
    (hordersOne : ∀ ord ∈ ordersOne, ord.Perm (List.range 1))
    (hlen : orders.length = ordersOne.length) :
    NonDoubleBuffer.run_generations g rows cols N orders =
      NonDoubleBuffer.run_generations g rows cols 1 ordersOne := by
  have hN0 : 0 < N := by rcases hN with h | h | h | h <;> omega
  rw [NonDoubleBuffer.run_generations_eq_iterate rows cols N hN0 hdvd orders
      g horders,
    NonDoubleBuffer.run_generations_eq_iterate rows cols 1 (by omega)
      (one_dvd rows) ordersOne g hordersOne,
    hlen]

/-- Witness for C1: two workers, two generations, concrete reversed
execution orders. -/
theorem C1_partitioning_preserves_outcome_witness :
    ((2 : Nat) = 1 ∨ (2 : Nat) = 2 ∨ (2 : Nat) = 4 ∨ (2 : Nat) = 8) ∧
      (2 : Nat) ∣ 4 ∧
      (∀ ord ∈ [[1, 0], [0, 1]], List.Perm ord (List.range 2)) ∧
      (∀ ord ∈ [[0], [0]], List.Perm ord (List.range 1)) ∧
      ([[1, 0], [0, 1]] : List (List Nat)).length =
        ([[0], [0]] : List (List Nat)).length ∧
      NonDoubleBuffer.run_generations one_live_cell 4 1 2 [[1, 0], [0, 1]] =
        NonDoubleBuffer.run_generations one_live_cell 4 1 1 [[0], [0]] :=
  ⟨by decide, by decide, by decide, by decide, by decide,
    C1_partitioning_preserves_outcome one_live_cell 4 1 2 [[1, 0], [0, 1]]
      [[0], [0]] (by decide) (by decide) (by decide) (by decide) (by decide)⟩

end GoL
